import Mathlib

/-!
Verification development for the batch text-insertion repository.

The file shallowly embeds the rendering core of `src/utils/canvasUtils.ts`:

* `calculateOptimalFontSize` — the binary search for the largest font size
  fitting a scaled rectangle.  The host canvas measurement primitive
  (`ctx.font := buildFontString(style, size); ctx.measureText(text).width`)
  is abstracted as an explicit function `measure : ℤ → ℚ` giving the measured
  width of the (fixed) text at each integer font size.  JavaScript numbers are
  modelled as exact rationals `ℚ`.
* `drawTextWithLetterSpacing` — the per-glyph painting path; the per-character
  measurement is abstracted as `measureChar : Char → ℚ`.
* the `textTransform` switch and the `textShadow` regex of `drawTextOnCanvas`.
* `generateImages` — the batch loop; canvas-context acquisition is abstracted
  as a predicate `ctxAvail` on the name's index, and the produced raster/blob
  are environment outputs, so a result record is represented by its `name`
  field, the only field computed by repository logic.

The JavaScript loop `while (low <= high)` is embedded with an explicit fuel
argument that is structurally consumed; the wrapper `searchLoop` supplies
`searchMeasure low high` units of fuel, and `searchLoopFuel_fuel_irrelevant`
shows this is enough fuel for the loop to run to completion, so the embedding
computes exactly the JavaScript loop's result on finite inputs where exact
rational arithmetic agrees with IEEE doubles.  The IEEE edge behaviour on
which the loop's termination genuinely depends — an infinite search bound is
absorbing (`Infinity + 1 = Infinity - 1 = Infinity`), so the loop then never
exits — is modelled separately and faithfully by the `JsNum` carrier and the
`searchStepJs` state transformer.
-/

/-- The `textTransform` union type of the source's `TextStyle`
(`'none' | 'uppercase' | 'lowercase' | 'capitalize'`). -/
inductive TextTransform where
  | none : TextTransform
  | uppercase : TextTransform
  | lowercase : TextTransform
  | capitalize : TextTransform
deriving DecidableEq

/-- The `TextStyle` record of `src/types` (fields as listed in the spec's data
model).  Numeric fields are rationals, string-typed CSS fields stay strings. -/
structure TextStyle where
  fontFamily : String
  fontSize : ℚ
  fontWeight : String
  fontStyle : String
  color : String
  textDecoration : String
  textTransform : TextTransform
  letterSpacing : ℚ
  lineHeight : ℚ
  textShadow : String
  opacity : ℚ

/-- The fit test of the binary search body in `calculateOptimalFontSize`:
`textWidth = measure(size) + letterSpacing * (text.length - 1)` and
`textHeight = size * lineHeight`, and the candidate fits iff
`textWidth <= maxWidth - 4 && textHeight <= maxHeight - 4`
(the constant `4` is the source's `padding`). -/
def fitsAt (measure : ℤ → ℚ) (style : TextStyle) (len : ℕ)
    (maxWidth maxHeight : ℚ) (size : ℤ) : Bool :=
  decide (measure size + style.letterSpacing * ((len : ℚ) - 1) ≤ maxWidth - 4) &&
  decide ((size : ℚ) * style.lineHeight ≤ maxHeight - 4)

/-- The midpoint `Math.floor((low + high) / 2)` of the binary search. -/
def searchMid (low : ℤ) (high : ℚ) : ℤ := ⌊((low : ℚ) + high) / 2⌋

/-- Size of the remaining search bracket `[low, high]`: the number of integers
in it.  This quantity strictly decreases at every loop iteration and is used
as the fuel for the embedded loop. -/
def searchMeasure (low : ℤ) (high : ℚ) : ℕ := (⌊high⌋ + 1 - low).toNat

/-- The `while (low <= high)` loop of `calculateOptimalFontSize`, with an
explicit fuel argument.  One unfolding is one loop iteration: if the midpoint
fits, record it as the current best and search above it, otherwise search
below it. -/
def searchLoopFuel (fit : ℤ → Bool) : ℕ → ℤ → ℚ → ℤ → ℤ
  | 0, _, _, opt => opt
  | fuel + 1, low, high, opt =>
    if (low : ℚ) ≤ high then
      if fit (searchMid low high) then
        searchLoopFuel fit fuel (searchMid low high + 1) high (searchMid low high)
      else
        searchLoopFuel fit fuel low ((searchMid low high : ℚ) - 1) opt
    else opt

/-- The binary-search loop, run with enough fuel to terminate on its own:
`searchMeasure low high` bounds the number of iterations. -/
def searchLoop (fit : ℤ → Bool) (low : ℤ) (high : ℚ) (opt : ℤ) : ℤ :=
  searchLoopFuel fit (searchMeasure low high) low high opt

/-- Embedding of `calculateOptimalFontSize` in `src/utils/canvasUtils.ts`: binary search
over font sizes starting at `low = minFontSize = 4` with upper bound
`high = Math.max(maxHeight, maxWidth)` and initial best `4`, returning
`Math.max(optimalFontSize, minFontSize)`. -/
def calculateOptimalFontSize (measure : ℤ → ℚ) (text : String)
    (maxWidth maxHeight : ℚ) (style : TextStyle) : ℤ :=
  max (searchLoop (fitsAt measure style text.length maxWidth maxHeight)
        4 (max maxHeight maxWidth) 4) 4

/-- JavaScript whitespace and line terminators, the character class trimmed by
`String.prototype.trim` (tab, LF, VT, FF, CR, space, NBSP, LS, PS, BOM). -/
def isJsWhitespace (c : Char) : Bool :=
  c = ' ' || c = '\t' || c = '\n' || c = '\r' ||
  c = Char.ofNat 0x0b || c = Char.ofNat 0x0c || c = Char.ofNat 0xa0 ||
  c = Char.ofNat 0x2028 || c = Char.ofNat 0x2029 || c = Char.ofNat 0xfeff

/-- JavaScript `String.prototype.trim`: remove leading and trailing
whitespace. -/
def trimJs (s : String) : String :=
  ⟨((s.data.dropWhile isJsWhitespace).reverse.dropWhile isJsWhitespace).reverse⟩

/-- The `for (let i = 0; i < names.length; i++)` loop of `generateImages`,
walking the remaining names with `i` the index of the head.  Per iteration:
trim the name and `continue` if it is empty; `continue` if no 2D context can
be obtained for the fresh canvas (`ctxAvail i = false` models
`canvas.getContext('2d')` returning null); otherwise push the result record
and call `onProgress(i + 1, names.length)`.  The first component collects the
`name` field of the pushed records (raster and blob are produced by the host
canvas, not by repository logic); the second collects the `onProgress`
argument pairs in call order. -/
def generateImagesAux (ctxAvail : ℕ → Bool) (total : ℕ) :
    ℕ → List String → List String × List (ℕ × ℕ)
  | _, [] => ([], [])
  | i, n :: rest =>
    if (trimJs n).isEmpty then generateImagesAux ctxAvail total (i + 1) rest
    else if ctxAvail i = false then generateImagesAux ctxAvail total (i + 1) rest
    else
      ((trimJs n) :: (generateImagesAux ctxAvail total (i + 1) rest).1,
        (i + 1, total) :: (generateImagesAux ctxAvail total (i + 1) rest).2)

/-- Embedding of `generateImages` in `src/utils/canvasUtils.ts`, observed through the
record names it returns and the `onProgress` calls it makes. -/
def generateImages (names : List String) (ctxAvail : ℕ → Bool) :
    List String × List (ℕ × ℕ) :=
  generateImagesAux ctxAvail names.length 0 names

/-- Modelled from the spec: the output names the batch generator should keep —
every name that is non-empty after trimming, trimmed, in input order. -/
def keptNames (names : List String) : List String :=
  (names.map trimJs).filter (fun t => !t.isEmpty)

/-- Indices of the names that the batch loop actually processes: non-blank
after trimming and with an available 2D context. -/
def processedIndices (names : List String) (ctxAvail : ℕ → Bool) : List ℕ :=
  (List.range names.length).filter
    (fun i => !(trimJs (names.getD i "")).isEmpty && ctxAvail i)

/-- A word character of the JavaScript regex class `\w`: `[A-Za-z0-9_]`. -/
def isWordChar (c : Char) : Bool :=
  ('a' ≤ c && c ≤ 'z') || ('A' ≤ c && c ≤ 'Z') || ('0' ≤ c && c ≤ '9') || c = '_'

/-- The effect of `text.replace(/\b\w/g, (c) => c.toUpperCase())`: walk the
characters carrying whether the previous character was a word character, and
upper-case exactly the word characters at a word boundary (string start or
after a non-word character). -/
def capitalizeWordStarts : Bool → List Char → List Char
  | _, [] => []
  | prevIsWord, c :: rest =>
    (if isWordChar c && !prevIsWord then c.toUpper else c) ::
      capitalizeWordStarts (isWordChar c) rest

/-- The `switch (style.textTransform)` of `drawTextOnCanvas` computing
`displayText` (ASCII-level model of the host `toUpperCase`/`toLowerCase`). -/
def applyTextTransform : TextTransform → String → String
  | TextTransform.none, s => s
  | TextTransform.uppercase, s => s.toUpper
  | TextTransform.lowercase, s => s.toLower
  | TextTransform.capitalize, s => ⟨capitalizeWordStarts false s.data⟩

/-- Decimal value of a digit run, as read by `parseInt`. -/
def digitsToNat (ds : List Char) : ℕ :=
  ds.foldl (fun a c => a * 10 + (c.toNat - '0'.toNat)) 0

/-- Match `(\d+)px` at the start of the character list: a maximal non-empty
digit run followed by the literal `px` (maximal munch agrees with the regex
because a digit can never start the literal `px`). -/
def parseUnsignedPx (cs : List Char) : Option (ℕ × List Char) :=
  let ds := cs.takeWhile Char.isDigit
  if ds.isEmpty then Option.none
  else
    match cs.dropWhile Char.isDigit with
    | 'p' :: 'x' :: rest => Option.some (digitsToNat ds, rest)
    | _ => Option.none

/-- Match `(-?\d+)px` at the start of the character list. -/
def parseSignedPx (cs : List Char) : Option (ℤ × List Char) :=
  match cs with
  | '-' :: rest => (parseUnsignedPx rest).map (fun p => (-(p.1 : ℤ), p.2))
  | _ => (parseUnsignedPx cs).map (fun p => ((p.1 : ℤ), p.2))

/-- Match `\s+` at the start of the character list (maximal munch agrees with
the regex because the following token starts with `-` or a digit). -/
def skipWs1 (cs : List Char) : Option (List Char) :=
  if (cs.takeWhile Char.isWhitespace).isEmpty then Option.none
  else Option.some (cs.dropWhile Char.isWhitespace)

/-- A JavaScript line terminator, not matched by `.`. -/
def isLineTerm (c : Char) : Bool :=
  c = '\n' || c = '\r' || c = Char.ofNat 0x2028 || c = Char.ofNat 0x2029

/-- The capture of the trailing greedy `(.*)`: everything up to the end of
the line. -/
def takeLine (cs : List Char) : List Char := cs.takeWhile (fun c => !isLineTerm c)

/-- Match the shadow pattern `(-?\d+)px\s+(-?\d+)px\s+(\d+)px\s+(.*)`
anchored at the start of the character list, returning the four captures
(offset-x, offset-y, blur, color). -/
def matchShadowAt (cs : List Char) : Option (ℤ × ℤ × ℕ × String) :=
  match parseSignedPx cs with
  | Option.none => Option.none
  | Option.some (ox, r1) =>
    match skipWs1 r1 with
    | Option.none => Option.none
    | Option.some r2 =>
      match parseSignedPx r2 with
      | Option.none => Option.none
      | Option.some (oy, r3) =>
        match skipWs1 r3 with
        | Option.none => Option.none
        | Option.some r4 =>
          match parseUnsignedPx r4 with
          | Option.none => Option.none
          | Option.some (blur, r5) =>
            match skipWs1 r5 with
            | Option.none => Option.none
            | Option.some r6 => Option.some (ox, oy, blur, ⟨takeLine r6⟩)

/-- The unanchored `String.prototype.match`: try the pattern at every start
position from left to right and keep the first match. -/
def searchShadow : List Char → Option (ℤ × ℤ × ℕ × String)
  | [] => Option.none
  | c :: rest =>
    match matchShadowAt (c :: rest) with
    | Option.some v => Option.some v
    | Option.none => searchShadow rest

/-- The shadow graphics state set by `drawTextOnCanvas`: skipped when
`style.textShadow` is falsy (the empty string) or the literal `none`, and
otherwise set to the parsed offsets, blur and color exactly when the regex
matches; on parse failure nothing is set. -/
def computeShadow (textShadow : String) : Option (ℤ × ℤ × ℕ × String) :=
  if textShadow = "" then Option.none
  else if textShadow = "none" then Option.none
  else
    match searchShadow textShadow.data with
    | Option.some v => Option.some v
    | Option.none => Option.none

/-- The total-width accumulation of `drawTextWithLetterSpacing`: add
`width + letterSpacing` for every character, then subtract one trailing
`letterSpacing`. -/
def totalWidthWithSpacing (letterSpacing : ℚ) (widths : List ℚ) : ℚ :=
  (widths.foldl (fun acc w => acc + (w + letterSpacing)) 0) - letterSpacing

/-- The per-glyph painting walk of `drawTextWithLetterSpacing`: paint each
character at `currentX + charWidth / 2` and advance `currentX` by
`charWidth + letterSpacing`.  Returns the `fillText` x-positions. -/
def drawGlyphs (letterSpacing : ℚ) : ℚ → List ℚ → List ℚ
  | _, [] => []
  | currentX, w :: rest =>
    (currentX + w / 2) :: drawGlyphs letterSpacing (currentX + w + letterSpacing) rest

/-- Embedding of `drawTextWithLetterSpacing` in `src/utils/canvasUtils.ts`, observed
through the x-positions of its `fillText` calls: the walk starts at
`x - totalWidth / 2`. -/
def drawTextWithLetterSpacing (measureChar : Char → ℚ) (text : String)
    (x letterSpacing : ℚ) : List ℚ :=
  drawGlyphs letterSpacing
    (x - totalWidthWithSpacing letterSpacing (text.data.map measureChar) / 2)
    (text.data.map measureChar)

/-- The spec's default style instance (§4.1). -/
def defaultStyle : TextStyle :=
  { fontFamily := "Arial", fontSize := 24, fontWeight := "normal",
    fontStyle := "normal", color := "#000000", textDecoration := "none",
    textTransform := TextTransform.none, letterSpacing := 0,
    lineHeight := 6/5, textShadow := "none", opacity := 1 }

/-- Style used by the concrete search-evaluation inputs: letter spacing `0`
and a small positive line height, so the width constraint alone decides the
fit. -/
def cexStyle : TextStyle := { defaultStyle with lineHeight := 1/10 }

/-- Style with line height `1`, used by concrete monotone-measurement
inputs. -/
def wStyle : TextStyle := { defaultStyle with lineHeight := 1 }

/-- A non-monotone measurement: only sizes `4` and `9` measure narrow.  Under
it the fitting sizes in `[4, 10]` are exactly `4` and `9`. -/
def cexMeasureC2 : ℤ → ℚ := fun s => if s = 4 ∨ s = 9 then 0 else 100

/-- A non-monotone measurement: only sizes `4` and `7` measure narrow. -/
def cexMeasureC5 : ℤ → ℚ := fun s => if s = 4 ∨ s = 7 then 0 else 100

/-- The transform example input `mary-anne o'connor` (apostrophe written via
its code point). -/
def maryLower : String :=
  ⟨['m', 'a', 'r', 'y', '-', 'a', 'n', 'n', 'e', ' ',
    'o', Char.ofNat 39, 'c', 'o', 'n', 'n', 'o', 'r']⟩

/-- The expected transform output `Mary-Anne O'Connor`. -/
def maryCaps : String :=
  ⟨['M', 'a', 'r', 'y', '-', 'A', 'n', 'n', 'e', ' ',
    'O', Char.ofNat 39, 'C', 'o', 'n', 'n', 'o', 'r']⟩

/-- A JavaScript number for the loop-termination analysis: a finite value
(kept exact; IEEE rounding of finite arithmetic is not modelled) or positive
infinity, which `Math.max(maxHeight, maxWidth)` propagates into the search
bound when a scaled dimension overflows or is infinite.  Negative infinity
and NaN never arise in the states this development examines. -/
inductive JsNum where
  | num : ℚ → JsNum
  | inf : JsNum
deriving DecidableEq

/-- IEEE comparison `<=` on the modelled fragment: every value is at most
`Infinity` (including `Infinity <= Infinity`), and `Infinity` exceeds every
finite value. -/
def jsLe : JsNum → JsNum → Bool
  | JsNum.num a, JsNum.num b => decide (a ≤ b)
  | _, JsNum.inf => true
  | JsNum.inf, JsNum.num _ => false

/-- IEEE addition on the modelled fragment: `Infinity` absorbs any other
operand (no negative infinity exists here, so no NaN case arises). -/
def jsAdd : JsNum → JsNum → JsNum
  | JsNum.num a, JsNum.num b => JsNum.num (a + b)
  | _, _ => JsNum.inf

/-- IEEE subtraction of a finite constant (the loop subtracts the literals
`1` and the padding `4`): `Infinity - c = Infinity`. -/
def jsSubFin : JsNum → ℚ → JsNum
  | JsNum.num a, b => JsNum.num (a - b)
  | JsNum.inf, _ => JsNum.inf

/-- IEEE multiplication by a positive finite factor, the only case the
development instantiates (`size * lineHeight` with the spec's positive
`lineHeight` multiplier): `Infinity * c = Infinity` for `c > 0`. -/
def jsMulFin : JsNum → ℚ → JsNum
  | JsNum.num a, b => JsNum.num (a * b)
  | JsNum.inf, _ => JsNum.inf

/-- IEEE halving: `Infinity / 2 = Infinity`. -/
def jsHalf : JsNum → JsNum
  | JsNum.num a => JsNum.num (a / 2)
  | JsNum.inf => JsNum.inf

/-- IEEE `Math.floor`: `Math.floor(Infinity) = Infinity`. -/
def jsFloor : JsNum → JsNum
  | JsNum.num a => JsNum.num ((⌊a⌋ : ℤ) : ℚ)
  | JsNum.inf => JsNum.inf

/-- IEEE `Math.max` on the modelled fragment: `Infinity` absorbs. -/
def jsMax : JsNum → JsNum → JsNum
  | JsNum.num a, JsNum.num b => JsNum.num (max a b)
  | _, _ => JsNum.inf

/-- The fit test of the binary search body over IEEE-modelled dimensions:
same formulas as `fitsAt`, with the measured width a finite number (as
`ctx.measureText` returns) and the rectangle bounds possibly infinite. -/
def fitsAtJs (measure : JsNum → ℚ) (style : TextStyle) (len : ℕ)
    (maxWidth maxHeight : JsNum) (size : JsNum) : Bool :=
  jsLe (JsNum.num (measure size + style.letterSpacing * ((len : ℚ) - 1)))
      (jsSubFin maxWidth 4) &&
  jsLe (jsMulFin size style.lineHeight) (jsSubFin maxHeight 4)

/-- The midpoint `Math.floor((low + high) / 2)` over IEEE-modelled numbers:
with `high = Infinity` it is `Infinity`. -/
def searchMidJs (low high : JsNum) : JsNum := jsFloor (jsHalf (jsAdd low high))

/-- One iteration of the `while (low <= high)` loop of
`calculateOptimalFontSize` over IEEE-modelled numbers, as a state
transformer on `(low, high, optimalFontSize)`; when the loop condition
fails the state is returned unchanged (the loop has exited). -/
def searchStepJs (fit : JsNum → Bool) : JsNum × JsNum × JsNum → JsNum × JsNum × JsNum
  | (low, high, opt) =>
    if jsLe low high then
      if fit (searchMidJs low high) then
        (jsAdd (searchMidJs low high) (JsNum.num 1), high, searchMidJs low high)
      else (low, jsSubFin (searchMidJs low high) 1, opt)
    else (low, high, opt)

/-- A measurement that always reports width 100, so nothing fits a width-10
rectangle; used with an infinite scaled height. -/
def cexMeasureC9 : JsNum → ℚ := fun _ => 100

/-- One-step unfolding of the loop at successor fuel. -/
theorem searchLoopFuel_succ (fit : ℤ → Bool) (fuel : ℕ) (low : ℤ) (high : ℚ) (opt : ℤ) :
    searchLoopFuel fit (fuel + 1) low high opt =
      if (low : ℚ) ≤ high then
        if fit (searchMid low high) then
          searchLoopFuel fit fuel (searchMid low high + 1) high (searchMid low high)
        else
          searchLoopFuel fit fuel low ((searchMid low high : ℚ) - 1) opt
      else opt := rfl

/-- While the loop condition holds, the midpoint is at least `low`. -/
theorem le_searchMid (low : ℤ) (high : ℚ) (h : (low : ℚ) ≤ high) :
    low ≤ searchMid low high := by
  unfold searchMid
  exact Int.le_floor.mpr (by linarith)

/-- While the loop condition holds, the midpoint is at most `high`. -/
theorem searchMid_le (low : ℤ) (high : ℚ) (h : (low : ℚ) ≤ high) :
    (searchMid low high : ℚ) ≤ high := by
  unfold searchMid
  calc ((⌊((low : ℚ) + high) / 2⌋ : ℤ) : ℚ) ≤ ((low : ℚ) + high) / 2 := Int.floor_le _
    _ ≤ high := by linarith

/-- Integer form of `searchMid_le`. -/
theorem searchMid_le_floor (low : ℤ) (high : ℚ) (h : (low : ℚ) ≤ high) :
    searchMid low high ≤ ⌊high⌋ :=
  Int.le_floor.mpr (searchMid_le low high h)

/-- While the loop condition holds, `low` is at most `⌊high⌋`. -/
theorem low_le_floor (low : ℤ) (high : ℚ) (h : (low : ℚ) ≤ high) :
    low ≤ ⌊high⌋ :=
  Int.le_floor.mpr h

/-- The bracket [low, high] strictly shrinks when the search moves up. -/
theorem searchMeasure_decreases_up (low : ℤ) (high : ℚ) (h : (low : ℚ) ≤ high) :
    searchMeasure (searchMid low high + 1) high < searchMeasure low high := by
  have h1 := le_searchMid low high h
  have h2 := low_le_floor low high h
  have h3 := searchMid_le_floor low high h
  unfold searchMeasure
  omega

/-- The bracket [low, high] strictly shrinks when the search moves down. -/
theorem searchMeasure_decreases_down (low : ℤ) (high : ℚ) (h : (low : ℚ) ≤ high) :
    searchMeasure low ((searchMid low high : ℚ) - 1) < searchMeasure low high := by
  have h1 := le_searchMid low high h
  have h2 := low_le_floor low high h
  have h3 := searchMid_le_floor low high h
  have h4 : ⌊(searchMid low high : ℚ) - 1⌋ = searchMid low high - 1 := by
    rw [show (searchMid low high : ℚ) - 1 = ((searchMid low high - 1 : ℤ) : ℚ) by push_cast; ring]
    exact Int.floor_intCast _
  unfold searchMeasure
  rw [h4]
  omega

/-- When the bracket is empty as measured by `searchMeasure`, the loop
condition is false. -/
theorem searchMeasure_zero_exit (low : ℤ) (high : ℚ) (h : searchMeasure low high = 0) :
    ¬ ((low : ℚ) ≤ high) := by
  intro hle
  have := low_le_floor low high hle
  unfold searchMeasure at h
  omega

/-- If the loop condition is already false, any amount of fuel returns the
current best immediately. -/
theorem searchLoopFuel_exit (fit : ℤ → Bool) (fuel : ℕ) (low : ℤ) (high : ℚ) (opt : ℤ)
    (hc : ¬ ((low : ℚ) ≤ high)) : searchLoopFuel fit fuel low high opt = opt := by
  cases fuel with
  | zero => rfl
  | succ n => rw [searchLoopFuel_succ, if_neg hc]

/-- Any two fuel amounts at least `searchMeasure low high` compute the same
result: the loop has genuinely terminated within that many iterations, so
`searchLoop` (which supplies exactly that much fuel) computes the JavaScript
loop's result. -/
theorem searchLoopFuel_fuel_irrelevant (fit : ℤ → Bool) :
    ∀ (fuel fuel' : ℕ) (low : ℤ) (high : ℚ) (opt : ℤ),
      searchMeasure low high ≤ fuel → searchMeasure low high ≤ fuel' →
      searchLoopFuel fit fuel low high opt = searchLoopFuel fit fuel' low high opt := by
  intro fuel
  induction fuel with
  | zero =>
    intro fuel' low high opt hle hle'
    have h0 : searchMeasure low high = 0 := Nat.le_zero.mp hle
    have hc := searchMeasure_zero_exit low high h0
    rw [searchLoopFuel_exit fit _ _ _ _ hc, searchLoopFuel_exit fit _ _ _ _ hc]
  | succ n ih =>
    intro fuel' low high opt hle hle'
    by_cases hc : (low : ℚ) ≤ high
    · have hm : 1 ≤ searchMeasure low high := by
        have := low_le_floor low high hc
        unfold searchMeasure
        omega
      obtain ⟨k, hk⟩ : ∃ k, fuel' = k + 1 := ⟨fuel' - 1, by omega⟩
      subst hk
      rw [searchLoopFuel_succ, searchLoopFuel_succ, if_pos hc, if_pos hc]
      by_cases hf : fit (searchMid low high) = true
      · rw [hf]
        simp only [if_true]
        have hd := searchMeasure_decreases_up low high hc
        exact ih k _ _ _ (by omega) (by omega)
      · rw [Bool.not_eq_true] at hf
        rw [hf]
        simp only [Bool.false_eq_true, if_false]
        have hd := searchMeasure_decreases_down low high hc
        exact ih k _ _ _ (by omega) (by omega)
    · rw [searchLoopFuel_exit fit _ _ _ _ hc, searchLoopFuel_exit fit _ _ _ _ hc]

/-- Running the loop with surplus fuel agrees with `searchLoop`. -/
theorem searchLoopFuel_eq_searchLoop (fit : ℤ → Bool) (fuel : ℕ) (low : ℤ) (high : ℚ)
    (opt : ℤ) (hle : searchMeasure low high ≤ fuel) :
    searchLoopFuel fit fuel low high opt = searchLoop fit low high opt :=
  searchLoopFuel_fuel_irrelevant fit fuel (searchMeasure low high) low high opt hle le_rfl

/-- Loop invariant that needs no assumption on `fit`: the running best starts
at `4` and is only ever replaced by a midpoint that passed the fit test, so
the final result is at least `4` and is either `4` or a size that fits. -/
theorem searchLoopFuel_basic (fit : ℤ → Bool) :
    ∀ (fuel : ℕ) (low : ℤ) (high : ℚ) (opt : ℤ),
      4 ≤ low → 4 ≤ opt → (opt = 4 ∨ fit opt = true) →
      4 ≤ searchLoopFuel fit fuel low high opt ∧
        (searchLoopFuel fit fuel low high opt = 4 ∨
          fit (searchLoopFuel fit fuel low high opt) = true) := by
  intro fuel
  induction fuel with
  | zero =>
    intro low high opt hlow hopt4 hopt
    exact ⟨hopt4, hopt⟩
  | succ n ih =>
    intro low high opt hlow hopt4 hopt
    rw [searchLoopFuel_succ]
    by_cases hc : (low : ℚ) ≤ high
    · rw [if_pos hc]
      have hmid := le_searchMid low high hc
      by_cases hf : fit (searchMid low high) = true
      · rw [hf]
        simp only [if_true]
        exact ih _ _ _ (by omega) (by omega) (Or.inr hf)
      · rw [Bool.not_eq_true] at hf
        rw [hf]
        simp only [Bool.false_eq_true, if_false]
        exact ih _ _ _ hlow hopt4 hopt
    · rw [if_neg hc]
      exact ⟨hopt4, hopt⟩

/-- Main loop characterization under a downward-closed fit predicate (every
size below a fitting size also fits).  Starting from the invariants that hold
at loop entry, the loop returns a value that is at least `4`, fits unless it
is `4`, stays below the original upper bound unless it is `4`, and dominates
every fitting size in the original bracket `[4, high₀]`. -/
theorem searchLoopFuel_maximal (fit : ℤ → Bool) (high₀ : ℚ)
    (hdc : ∀ a b : ℤ, a ≤ b → fit b = true → fit a = true) :
    ∀ (fuel : ℕ) (low : ℤ) (high : ℚ) (opt : ℤ),
      searchMeasure low high ≤ fuel →
      4 ≤ low → 4 ≤ opt →
      (opt = 4 ∨ fit opt = true) →
      (opt = 4 ∨ (opt : ℚ) ≤ high₀) →
      high ≤ high₀ →
      (∀ s : ℤ, 4 ≤ s → (s : ℚ) ≤ high₀ → fit s = true → ((s : ℚ) ≤ high ∨ s < low)) →
      (∀ s : ℤ, 4 ≤ s → (s : ℚ) ≤ high₀ → fit s = true → s < low → s ≤ opt) →
      4 ≤ searchLoopFuel fit fuel low high opt ∧
        (searchLoopFuel fit fuel low high opt = 4 ∨
          fit (searchLoopFuel fit fuel low high opt) = true) ∧
        (searchLoopFuel fit fuel low high opt = 4 ∨
          ((searchLoopFuel fit fuel low high opt : ℤ) : ℚ) ≤ high₀) ∧
        (∀ s : ℤ, 4 ≤ s → (s : ℚ) ≤ high₀ → fit s = true →
          s ≤ searchLoopFuel fit fuel low high opt) := by
  intro fuel
  induction fuel with
  | zero =>
    intro low high opt hfuel hlow hopt4 hopt hopt0 hhigh hK hJ
    have h0 : searchMeasure low high = 0 := Nat.le_zero.mp hfuel
    have hc := searchMeasure_zero_exit low high h0
    rw [searchLoopFuel_exit fit _ _ _ _ hc]
    refine ⟨hopt4, hopt, hopt0, ?_⟩
    intro s hs4 hs0 hfit
    have hlt : ((low : ℤ) : ℚ) > high := lt_of_not_le hc
    rcases hK s hs4 hs0 hfit with h | h
    · exact hJ s hs4 hs0 hfit (by exact_mod_cast lt_of_le_of_lt h hlt)
    · exact hJ s hs4 hs0 hfit h
  | succ n ih =>
    intro low high opt hfuel hlow hopt4 hopt hopt0 hhigh hK hJ
    by_cases hc : (low : ℚ) ≤ high
    · rw [searchLoopFuel_succ, if_pos hc]
      have hmid_lo := le_searchMid low high hc
      have hmid_hi := searchMid_le low high hc
      have hmid_fl := searchMid_le_floor low high hc
      have hlow_fl := low_le_floor low high hc
      by_cases hf : fit (searchMid low high) = true
      · rw [hf]
        simp only [if_true]
        have hd := searchMeasure_decreases_up low high hc
        refine ih _ _ _ (by omega) (by omega) (by omega) (Or.inr hf)
          (Or.inr (le_trans hmid_hi hhigh)) hhigh ?_ ?_
        · intro s hs4 hs0 hfit
          rcases hK s hs4 hs0 hfit with h | h
          · exact Or.inl h
          · exact Or.inr (by omega)
        · intro s hs4 hs0 hfit hlt
          have : s ≤ searchMid low high := by omega
          exact this
      · rw [Bool.not_eq_true] at hf
        rw [hf]
        simp only [Bool.false_eq_true, if_false]
        have hd := searchMeasure_decreases_down low high hc
        refine ih _ _ _ (by omega) hlow hopt4 hopt hopt0
          (le_trans (by linarith) hhigh) ?_ hJ
        intro s hs4 hs0 hfit
        left
        have hs_lt : s < searchMid low high := by
          by_contra hge
          push_neg at hge
          exact absurd (hdc (searchMid low high) s hge hfit) (by rw [hf]; simp)
        have : s ≤ searchMid low high - 1 := by omega
        calc (s : ℚ) ≤ ((searchMid low high - 1 : ℤ) : ℚ) := by exact_mod_cast this
          _ = (searchMid low high : ℚ) - 1 := by push_cast; ring
    · rw [searchLoopFuel_exit fit _ _ _ _ hc]
      refine ⟨hopt4, hopt, hopt0, ?_⟩
      intro s hs4 hs0 hfit
      have hlt : ((low : ℤ) : ℚ) > high := lt_of_not_le hc
      rcases hK s hs4 hs0 hfit with h | h
      · exact hJ s hs4 hs0 hfit (by exact_mod_cast lt_of_le_of_lt h hlt)
      · exact hJ s hs4 hs0 hfit h

/-- Unconditional fit-or-floor property of `calculateOptimalFontSize`: the
returned size is at least `4`, and is either exactly `4` or a size that
passed the fit test. -/
theorem calculateOptimalFontSize_fit (measure : ℤ → ℚ) (text : String)
    (maxWidth maxHeight : ℚ) (style : TextStyle) :
    4 ≤ calculateOptimalFontSize measure text maxWidth maxHeight style ∧
      (calculateOptimalFontSize measure text maxWidth maxHeight style = 4 ∨
        fitsAt measure style text.length maxWidth maxHeight
          (calculateOptimalFontSize measure text maxWidth maxHeight style) = true) := by
  unfold calculateOptimalFontSize searchLoop
  have h := searchLoopFuel_basic (fitsAt measure style text.length maxWidth maxHeight)
    (searchMeasure 4 (max maxHeight maxWidth)) 4 (max maxHeight maxWidth) 4
    le_rfl le_rfl (Or.inl rfl)
  rw [max_eq_left h.1]
  exact h

/-- Characterization of `calculateOptimalFontSize` when the fit predicate is
downward closed: the result fits (unless it is the floor value `4`), lies in
`[4, max maxHeight maxWidth]` (unless it is `4`), and is the largest fitting
integer size in that range. -/
theorem calculateOptimalFontSize_maximal (measure : ℤ → ℚ) (text : String)
    (maxWidth maxHeight : ℚ) (style : TextStyle)
    (hdc : ∀ a b : ℤ, a ≤ b →
      fitsAt measure style text.length maxWidth maxHeight b = true →
      fitsAt measure style text.length maxWidth maxHeight a = true) :
    4 ≤ calculateOptimalFontSize measure text maxWidth maxHeight style ∧
      (calculateOptimalFontSize measure text maxWidth maxHeight style = 4 ∨
        fitsAt measure style text.length maxWidth maxHeight
          (calculateOptimalFontSize measure text maxWidth maxHeight style) = true) ∧
      (calculateOptimalFontSize measure text maxWidth maxHeight style = 4 ∨
        ((calculateOptimalFontSize measure text maxWidth maxHeight style : ℤ) : ℚ) ≤
          max maxHeight maxWidth) ∧
      (∀ s : ℤ, 4 ≤ s → (s : ℚ) ≤ max maxHeight maxWidth →
        fitsAt measure style text.length maxWidth maxHeight s = true →
        s ≤ calculateOptimalFontSize measure text maxWidth maxHeight style) := by
  unfold calculateOptimalFontSize searchLoop
  have h := searchLoopFuel_maximal (fitsAt measure style text.length maxWidth maxHeight)
    (max maxHeight maxWidth) hdc
    (searchMeasure 4 (max maxHeight maxWidth)) 4 (max maxHeight maxWidth) 4
    le_rfl le_rfl le_rfl (Or.inl rfl) (Or.inl rfl) le_rfl
    (fun s _ hs0 _ => Or.inl hs0)
    (fun s hs4 _ _ hlt => absurd hlt (by omega))
  rw [max_eq_left h.1]
  exact h

theorem generateImagesAux_eq (ctxAvail : ℕ → Bool) (total : ℕ) :
    ∀ (l : List String) (i : ℕ),
      generateImagesAux ctxAvail total i l =
        (((List.range l.length).filter
            (fun j => !(trimJs (l.getD j "")).isEmpty && ctxAvail (i + j))).map
          (fun j => trimJs (l.getD j "")),
        ((List.range l.length).filter
            (fun j => !(trimJs (l.getD j "")).isEmpty && ctxAvail (i + j))).map
          (fun j => (i + j + 1, total))) := by
  intro l
  induction l with
  | nil =>
    intro i
    simp [generateImagesAux]
  | cons n rest ih =>
    intro i
    have hcomp1 :
        ((fun j => !(trimJs ((n :: rest).getD j "")).isEmpty && ctxAvail (i + j)) ∘ Nat.succ) =
          (fun j => !(trimJs (rest.getD j "")).isEmpty && ctxAvail (i + 1 + j)) := by
      funext j
      simp only [Function.comp_apply, List.getD_cons_succ]
      congr 2
      omega
    have hcomp2 :
        ((fun j => trimJs ((n :: rest).getD j "")) ∘ Nat.succ) =
          (fun j => trimJs (rest.getD j "")) := by
      funext j
      simp [Function.comp_apply]
    have hcomp3 :
        ((fun j => (i + j + 1, total)) ∘ Nat.succ) =
          (fun j => (i + 1 + j + 1, total)) := by
      funext j
      simp only [Function.comp_apply]
      congr 2
      omega
    by_cases hb : (trimJs n).isEmpty = true
    · have haux : generateImagesAux ctxAvail total i (n :: rest) =
          generateImagesAux ctxAvail total (i + 1) rest := by
        simp [generateImagesAux, hb]
      rw [haux, ih]
      simp only [List.length_cons, List.range_succ_eq_map, List.filter_cons,
        List.getD_cons_zero, Nat.add_zero, hb, Bool.not_true, Bool.false_and,
        Bool.false_eq_true, if_false, List.filter_map, List.map_map]
      try rw [hcomp1]
      try rw [hcomp2]
      try rw [hcomp3]
    · rw [Bool.not_eq_true] at hb
      by_cases hc : ctxAvail i = true
      · have haux : generateImagesAux ctxAvail total i (n :: rest) =
            ((trimJs n) :: (generateImagesAux ctxAvail total (i + 1) rest).1,
              (i + 1, total) :: (generateImagesAux ctxAvail total (i + 1) rest).2) := by
          simp [generateImagesAux, hb, hc]
        rw [haux, ih]
        simp only [List.length_cons, List.range_succ_eq_map, List.filter_cons,
          List.getD_cons_zero, Nat.add_zero, hb, hc, Bool.not_false, Bool.true_and,
          if_true, List.map_cons, List.filter_map, List.map_map]
        try rw [hcomp1]
        try rw [hcomp2]
        try rw [hcomp3]
        try simp
      · have haux : generateImagesAux ctxAvail total i (n :: rest) =
            generateImagesAux ctxAvail total (i + 1) rest := by
          simp [generateImagesAux, hb, hc]
        rw [haux, ih]
        rw [Bool.not_eq_true] at hc
        simp only [List.length_cons, List.range_succ_eq_map, List.filter_cons,
          List.getD_cons_zero, Nat.add_zero, hb, hc, Bool.not_false, Bool.true_and,
          Bool.and_false, Bool.false_eq_true, if_false, List.filter_map, List.map_map]
        try rw [hcomp1]
        try rw [hcomp2]
        try rw [hcomp3]
        try simp

/-- With a context available for every index, the batch loop's records are
exactly the trimmed non-blank names, in input order. -/
theorem generateImagesAux_all_ctx (total : ℕ) :
    ∀ (l : List String) (i : ℕ),
      (generateImagesAux (fun _ => true) total i l).1 = keptNames l := by
  intro l
  induction l with
  | nil => intro i; rfl
  | cons n rest ih =>
    intro i
    by_cases hb : (trimJs n).isEmpty = true
    · simp [generateImagesAux, hb, keptNames, List.filter_cons, ih (i + 1)]
    · rw [Bool.not_eq_true] at hb
      simp [generateImagesAux, hb, keptNames, List.filter_cons, ih (i + 1)]

/-- Value of the width-accumulating fold of `drawTextWithLetterSpacing`. -/
theorem foldl_width (letterSpacing : ℚ) :
    ∀ (ws : List ℚ) (a : ℚ),
      ws.foldl (fun acc w => acc + (w + letterSpacing)) a =
        a + ws.sum + (ws.length : ℚ) * letterSpacing := by
  intro ws
  induction ws with
  | nil => intro a; simp
  | cons w rest ih =>
    intro a
    rw [List.foldl_cons, ih, List.sum_cons, List.length_cons]
    push_cast
    ring

/-- Closed form of the accumulated total width: sum of the widths plus
`(length - 1)` letter spacings. -/
theorem totalWidth_formula (letterSpacing : ℚ) (ws : List ℚ) :
    totalWidthWithSpacing letterSpacing ws =
      ws.sum + ((ws.length : ℚ) - 1) * letterSpacing := by
  unfold totalWidthWithSpacing
  rw [foldl_width]
  ring

/-- The first glyph is painted at the starting cursor plus half its own
width. -/
theorem drawGlyphs_getD_zero (letterSpacing : ℚ) (ws : List ℚ) (cur : ℚ) (h : ws ≠ []) :
    (drawGlyphs letterSpacing cur ws).getD 0 0 = cur + ws.getD 0 0 / 2 := by
  cases ws with
  | nil => exact absurd rfl h
  | cons w rest => simp [drawGlyphs]

/-- Cursor-advance relation of the glyph walk: the cursor position of glyph
`k + 1` (its paint position minus half its width) is the cursor position of
glyph `k` advanced by that glyph's width plus the letter spacing. -/
theorem drawGlyphs_getD_succ (letterSpacing : ℚ) :
    ∀ (ws : List ℚ) (cur : ℚ) (k : ℕ), k + 1 < ws.length →
      (drawGlyphs letterSpacing cur ws).getD (k + 1) 0 =
        ((drawGlyphs letterSpacing cur ws).getD k 0 - ws.getD k 0 / 2) +
          ws.getD k 0 + letterSpacing + ws.getD (k + 1) 0 / 2 := by
  intro ws
  induction ws with
  | nil => intro cur k h; simp at h
  | cons w rest ih =>
    intro cur k h
    cases k with
    | zero =>
      have hrest : rest ≠ [] := by
        rw [List.length_cons] at h
        exact List.length_pos.mp (by omega)
      simp only [drawGlyphs, List.getD_cons_succ, List.getD_cons_zero]
      rw [drawGlyphs_getD_zero letterSpacing rest _ hrest]
      ring
    | succ k =>
      have h2 : k + 1 < rest.length := by
        rw [List.length_cons] at h
        omega
      simp only [drawGlyphs, List.getD_cons_succ]
      exact ih _ k h2

/-- C3, counterexample: the claim says `onProgress` is invoked once per
attempted name — 4 times for `["Alice", "  ", "", "Bob"]` with `current`
running 1..4.  The code skips blank names before the progress call, so it is
invoked only twice here, with arguments `(1, 4)` and `(4, 4)`. -/
theorem c3_counterexample :
    (generateImages ["Alice", "  ", "", "Bob"] (fun _ => true)).2 = [(1, 4), (4, 4)] ∧
      ((generateImages ["Alice", "  ", "", "Bob"] (fun _ => true)).2).length = 2 ∧
      ¬ ((generateImages ["Alice", "  ", "", "Bob"] (fun _ => true)).2).length = 4 := by
  decide

/-- C3, amended: `onProgress` is invoked exactly once per processed name
(non-blank after trimming and with an available context), in input order,
with arguments `(attemptedIndex + 1, totalNames)`; skipped names get no
call. -/
theorem c3_progress_on_processed_names (names : List String) (ctxAvail : ℕ → Bool) :
    (generateImages names ctxAvail).2 =
      (processedIndices names ctxAvail).map (fun i => (i + 1, names.length)) := by
  unfold generateImages processedIndices
  rw [generateImagesAux_eq]
  simp

/-- C4: with a drawing context available for every name, `generateImages`
returns exactly one record per name that is non-empty after trimming, in
input order, whose `name` field is the trimmed name; blank or
whitespace-only names produce no record. -/
theorem c4_record_per_nonblank_name (names : List String) :
    (generateImages names (fun _ => true)).1 = keptNames names := by
  unfold generateImages
  exact generateImagesAux_all_ctx names.length names 0

/-- C10: if the 2D context for the name at index `i` cannot be obtained,
the batch output is exactly as if that name had been blank — no record, no
`onProgress` call carrying `i + 1`, and every other name processed
unchanged; no error is raised (the embedding is total). -/
theorem c10_missing_context_skips_name (names : List String) (ctxAvail : ℕ → Bool) (i : ℕ)
    (hi : i < names.length) (hctx : ctxAvail i = false) :
    generateImages names ctxAvail = generateImages (names.set i "") ctxAvail ∧
      (i + 1, names.length) ∉ (generateImages names ctxAvail).2 := by
  constructor
  · unfold generateImages
    rw [generateImagesAux_eq, generateImagesAux_eq, List.length_set]
    have hpred :
        (fun j => !(trimJs (names.getD j "")).isEmpty && ctxAvail (0 + j)) =
          (fun j => !(trimJs ((names.set i "").getD j "")).isEmpty && ctxAvail (0 + j)) := by
      funext j
      by_cases hj : j = i
      · subst hj
        simp [hctx]
      · have : (names.set i "").getD j "" = names.getD j "" := by
          rw [List.getD_eq_getElem?_getD, List.getD_eq_getElem?_getD,
            List.getElem?_set_ne (fun h => hj h.symm)]
        rw [this]
    have hmap : ∀ j ∈ (List.range names.length).filter
        (fun j => !(trimJs (names.getD j "")).isEmpty && ctxAvail (0 + j)),
        trimJs (names.getD j "") = trimJs ((names.set i "").getD j "") := by
      intro j hj
      rcases List.mem_filter.mp hj with ⟨_, hpj⟩
      rcases Bool.and_eq_true_iff.mp hpj with ⟨_, hcj⟩
      have hji : j ≠ i := by
        intro h
        rw [h] at hcj
        simp [hctx] at hcj
      have : (names.set i "").getD j "" = names.getD j "" := by
        rw [List.getD_eq_getElem?_getD, List.getD_eq_getElem?_getD,
          List.getElem?_set_ne (fun h => hji h.symm)]
      rw [this]
    rw [← hpred]
    exact Prod.ext (List.map_congr_left hmap) rfl
  · intro hmem
    unfold generateImages at hmem
    rw [generateImagesAux_eq] at hmem
    simp only at hmem
    rcases List.mem_map.mp hmem with ⟨j, hjf, hje⟩
    rcases List.mem_filter.mp hjf with ⟨_, hpj⟩
    rcases Bool.and_eq_true_iff.mp hpj with ⟨_, hcj⟩
    have hji : j = i := by
      have := congrArg Prod.fst hje
      simp at this
      omega
    rw [hji, Nat.zero_add, hctx] at hcj
    exact Bool.false_ne_true hcj

/-- Witness for C10 at `names = ["Alice", "Bob"]` with the context
unavailable exactly at index 0. -/
theorem c10_missing_context_skips_name_witness :
    (0 < (["Alice", "Bob"] : List String).length) ∧
      ((fun j : ℕ => j != 0) 0 = false) ∧
      (generateImages ["Alice", "Bob"] (fun j => j != 0) =
          generateImages (["Alice", "Bob"].set 0 "") (fun j => j != 0) ∧
        (0 + 1, (["Alice", "Bob"] : List String).length) ∉
          (generateImages ["Alice", "Bob"] (fun j => j != 0)).2) :=
  ⟨by decide, rfl,
    c10_missing_context_skips_name ["Alice", "Bob"] (fun j => j != 0) 0 (by decide) rfl⟩

/-- C6: for a non-empty string, the accumulated total width equals the sum
of the measured character widths plus `(n - 1)` letter spacings (not `n`),
the walk starts at `x - totalWidth / 2`, and each glyph's cursor advance is
its own measured width plus the letter spacing. -/
theorem c6_letter_spacing_advances (measureChar : Char → ℚ) (text : String)
    (x letterSpacing : ℚ) (hne : text ≠ "") :
    totalWidthWithSpacing letterSpacing (text.data.map measureChar) =
        (text.data.map measureChar).sum + ((text.length : ℚ) - 1) * letterSpacing ∧
      (drawTextWithLetterSpacing measureChar text x letterSpacing).getD 0 0 =
        x - totalWidthWithSpacing letterSpacing (text.data.map measureChar) / 2 +
          (text.data.map measureChar).getD 0 0 / 2 ∧
      ∀ k : ℕ, k + 1 < text.length →
        (drawTextWithLetterSpacing measureChar text x letterSpacing).getD (k + 1) 0 =
          ((drawTextWithLetterSpacing measureChar text x letterSpacing).getD k 0 -
              (text.data.map measureChar).getD k 0 / 2) +
            (text.data.map measureChar).getD k 0 + letterSpacing +
            (text.data.map measureChar).getD (k + 1) 0 / 2 := by
  have hdata : text.data ≠ [] := by
    intro h
    apply hne
    cases text
    simp_all
  have hlen : (text.data.map measureChar).length = text.length := by
    rw [List.length_map]
    rfl
  have hwne : text.data.map measureChar ≠ [] := by
    simp [hdata]
  refine ⟨?_, ?_, ?_⟩
  · rw [totalWidth_formula, hlen]
  · unfold drawTextWithLetterSpacing
    exact drawGlyphs_getD_zero letterSpacing _ _ hwne
  · intro k hk
    unfold drawTextWithLetterSpacing
    exact drawGlyphs_getD_succ letterSpacing _ _ k (by rw [hlen]; exact hk)

/-- Witness for C6 at the two-character string `"ab"` with widths 2 and 3
and letter spacing 1. -/
theorem c6_letter_spacing_advances_witness :
    (("ab" : String) ≠ "") ∧
      (totalWidthWithSpacing 1 ("ab".data.map (fun c => if c = 'a' then (2:ℚ) else 3)) =
        ("ab".data.map (fun c => if c = 'a' then (2:ℚ) else 3)).sum +
          (("ab".length : ℚ) - 1) * 1) ∧
      ((drawTextWithLetterSpacing (fun c => if c = 'a' then (2:ℚ) else 3) "ab" 0 1).getD 1 0 =
        ((drawTextWithLetterSpacing (fun c => if c = 'a' then (2:ℚ) else 3) "ab" 0 1).getD 0 0 -
            ("ab".data.map (fun c => if c = 'a' then (2:ℚ) else 3)).getD 0 0 / 2) +
          ("ab".data.map (fun c => if c = 'a' then (2:ℚ) else 3)).getD 0 0 + 1 +
          ("ab".data.map (fun c => if c = 'a' then (2:ℚ) else 3)).getD 1 0 / 2) :=
  ⟨by decide,
    (c6_letter_spacing_advances (fun c => if c = 'a' then (2:ℚ) else 3) "ab" 0 1
      (by decide)).1,
    (c6_letter_spacing_advances (fun c => if c = 'a' then (2:ℚ) else 3) "ab" 0 1
      (by decide)).2.2 0 (by decide)⟩

/-- Pointwise description of the capitalize transform: a character is
upper-cased exactly when it is a word character at a word boundary (position
0 with no preceding word character, or preceded by a non-word character);
all other characters are unchanged. -/
theorem capitalizeWordStarts_getD :
    ∀ (cs : List Char) (b : Bool) (k : ℕ), k < cs.length →
      (capitalizeWordStarts b cs).getD k 'a' =
        if (isWordChar (cs.getD k 'a') &&
            (if k = 0 then !b else !isWordChar (cs.getD (k - 1) 'a'))) = true
        then (cs.getD k 'a').toUpper else cs.getD k 'a' := by
  intro cs
  induction cs with
  | nil => intro b k h; simp at h
  | cons c rest ih =>
    intro b k h
    cases k with
    | zero =>
      simp [capitalizeWordStarts]
    | succ k =>
      have h2 : k < rest.length := by
        rw [List.length_cons] at h
        omega
      simp only [capitalizeWordStarts, List.getD_cons_succ]
      rw [ih (isWordChar c) k h2]
      have hcond :
          (if k = 0 then !(isWordChar c) else !isWordChar (rest.getD (k - 1) 'a')) =
            (if k + 1 = 0 then !b else !isWordChar ((c :: rest).getD (k + 1 - 1) 'a')) := by
        cases k with
        | zero => simp
        | succ m => simp [List.getD_cons_succ]
      rw [hcond]

/-- C7: the capitalize transform upper-cases exactly the first letter of
every run of word characters and leaves all other characters unchanged; it
maps `mary-anne o'connor` to `Mary-Anne O'Connor`, while `uppercase` and
`lowercase` case-flip the whole string and `none` leaves it unchanged. -/
theorem c7_text_transform (cs : List Char) (k : ℕ) (hk : k < cs.length) :
    ((capitalizeWordStarts false cs).getD k 'a' =
        if (isWordChar (cs.getD k 'a') &&
            (decide (k = 0) || !isWordChar (cs.getD (k - 1) 'a'))) = true
        then (cs.getD k 'a').toUpper else cs.getD k 'a') ∧
      applyTextTransform TextTransform.capitalize maryLower = maryCaps ∧
      (∀ s : String, applyTextTransform TextTransform.uppercase s = s.toUpper) ∧
      (∀ s : String, applyTextTransform TextTransform.lowercase s = s.toLower) ∧
      (∀ s : String, applyTextTransform TextTransform.none s = s) := by
  refine ⟨?_, by decide, fun s => rfl, fun s => rfl, fun s => rfl⟩
  rw [capitalizeWordStarts_getD cs false k hk]
  have hcond :
      (if k = 0 then !false else !isWordChar (cs.getD (k - 1) 'a')) =
        (decide (k = 0) || !isWordChar (cs.getD (k - 1) 'a')) := by
    by_cases hz : k = 0
    · simp [hz]
    · simp [hz]
  rw [hcond]

/-- Witness for C7 at the example string's position 10 (the letter after
the space, capitalized). -/
theorem c7_text_transform_witness :
    ((10 : ℕ) < maryLower.data.length) ∧
      ((capitalizeWordStarts false maryLower.data).getD 10 'a' =
        if (isWordChar (maryLower.data.getD 10 'a') &&
            (decide ((10 : ℕ) = 0) || !isWordChar (maryLower.data.getD (10 - 1) 'a'))) = true
        then (maryLower.data.getD 10 'a').toUpper else maryLower.data.getD 10 'a') ∧
      applyTextTransform TextTransform.capitalize maryLower = maryCaps :=
  ⟨by decide, (c7_text_transform maryLower.data 10 (by decide)).1,
    (c7_text_transform maryLower.data 10 (by decide)).2.1⟩

/-- C8: a `textShadow` value on which the shadow regex fails sets no
shadow state and renders identically to the literal `none`; the example
`2px 2px 4px #000000` parses to offsets (2, 2), blur 4 and color
`#000000`; and on any successful parse the matched offsets, blur and color
are applied. -/
theorem c8_shadow_parse (ts : String) (h : searchShadow ts.data = Option.none) :
    computeShadow ts = Option.none ∧
      computeShadow ts = computeShadow "none" ∧
      computeShadow "2px 2px 4px #000000" = Option.some (2, 2, 4, "#000000") ∧
      (∀ (ts2 : String) (v : ℤ × ℤ × ℕ × String),
        ts2 ≠ "" → ts2 ≠ "none" → searchShadow ts2.data = Option.some v →
        computeShadow ts2 = Option.some v) := by
  have hnone : computeShadow ts = Option.none := by
    unfold computeShadow
    by_cases he : ts = ""
    · rw [if_pos he]
    · rw [if_neg he]
      by_cases hn : ts = "none"
      · rw [if_pos hn]
      · rw [if_neg hn, h]
  refine ⟨hnone, ?_, by decide, ?_⟩
  · rw [hnone]
    rfl
  · intro ts2 v he hn hs
    unfold computeShadow
    rw [if_neg he, if_neg hn, hs]

/-- Witness for C8 at the unparsable string `invalid`. -/
theorem c8_shadow_parse_witness :
    (searchShadow ("invalid" : String).data = Option.none) ∧
      computeShadow "invalid" = Option.none ∧
      computeShadow "invalid" = computeShadow "none" ∧
      computeShadow "2px 2px 4px #000000" = Option.some (2, 2, 4, "#000000") :=
  ⟨by decide, (c8_shadow_parse "invalid" (by decide)).1,
    (c8_shadow_parse "invalid" (by decide)).2.1,
    (c8_shadow_parse "invalid" (by decide)).2.2.1⟩

/-- Single evaluation step of the loop when the midpoint fits. -/
theorem searchLoopFuel_step_true (fit : ℤ → Bool) (fuel : ℕ) (low : ℤ) (high : ℚ)
    (opt mid : ℤ) (hc : (low : ℚ) ≤ high) (hm : searchMid low high = mid)
    (hf : fit mid = true) :
    searchLoopFuel fit (fuel + 1) low high opt = searchLoopFuel fit fuel (mid + 1) high mid := by
  rw [searchLoopFuel_succ, if_pos hc, hm, hf]
  simp

/-- Single evaluation step of the loop when the midpoint does not fit. -/
theorem searchLoopFuel_step_false (fit : ℤ → Bool) (fuel : ℕ) (low : ℤ) (high high2 : ℚ)
    (opt mid : ℤ) (hc : (low : ℚ) ≤ high) (hm : searchMid low high = mid)
    (hf : fit mid = false) (hh : (mid : ℚ) - 1 = high2) :
    searchLoopFuel fit (fuel + 1) low high opt = searchLoopFuel fit fuel low high2 opt := by
  rw [searchLoopFuel_succ, if_pos hc, hm, hf]
  simp [hh]

/-- C1: whenever `calculateOptimalFontSize` returns a size other than the
floor value 4, that size satisfies both fit bounds: measured width plus
`letterSpacing * (length - 1)` is at most `scaledWidth - 4`, and size times
`lineHeight` is at most `scaledHeight - 4`. -/
theorem c1_returned_size_fits (measure : ℤ → ℚ) (text : String) (maxWidth maxHeight : ℚ)
    (style : TextStyle)
    (h4 : calculateOptimalFontSize measure text maxWidth maxHeight style ≠ 4) :
    measure (calculateOptimalFontSize measure text maxWidth maxHeight style) +
        style.letterSpacing * ((text.length : ℚ) - 1) ≤ maxWidth - 4 ∧
      ((calculateOptimalFontSize measure text maxWidth maxHeight style : ℤ) : ℚ) *
        style.lineHeight ≤ maxHeight - 4 := by
  rcases (calculateOptimalFontSize_fit measure text maxWidth maxHeight style).2 with h | h
  · exact absurd h h4
  · unfold fitsAt at h
    rcases Bool.and_eq_true_iff.mp h with ⟨h1, h2⟩
    exact ⟨of_decide_eq_true h1, of_decide_eq_true h2⟩

/-- Witness for C1 on a 20 by 20 rectangle with a constant-zero
measurement, where the returned size is not 4. -/
theorem c1_returned_size_fits_witness :
    (calculateOptimalFontSize (fun _ => (0 : ℚ)) "ab" 20 20 wStyle ≠ 4) ∧
      ((fun _ => (0 : ℚ)) (calculateOptimalFontSize (fun _ => (0 : ℚ)) "ab" 20 20 wStyle) +
          wStyle.letterSpacing * (("ab".length : ℚ) - 1) ≤ 20 - 4 ∧
        ((calculateOptimalFontSize (fun _ => (0 : ℚ)) "ab" 20 20 wStyle : ℤ) : ℚ) *
          wStyle.lineHeight ≤ 20 - 4) := by
  have hdc : ∀ a b : ℤ, a ≤ b →
      fitsAt (fun _ => (0 : ℚ)) wStyle "ab".length 20 20 b = true →
      fitsAt (fun _ => (0 : ℚ)) wStyle "ab".length 20 20 a = true := by
    intro a b hab hfb
    unfold fitsAt at hfb ⊢
    rcases Bool.and_eq_true_iff.mp hfb with ⟨h1, h2⟩
    have h2' := of_decide_eq_true h2
    apply Bool.and_eq_true_iff.mpr
    refine ⟨h1, decide_eq_true ?_⟩
    have hcast : ((a : ℤ) : ℚ) ≤ ((b : ℤ) : ℚ) := by exact_mod_cast hab
    simp only [wStyle, defaultStyle] at h2' ⊢
    linarith
  have hmax := calculateOptimalFontSize_maximal (fun _ => (0 : ℚ)) "ab" 20 20 wStyle hdc
  have hfit16 : fitsAt (fun _ => (0 : ℚ)) wStyle "ab".length 20 20 16 = true := by
    apply Bool.and_eq_true_iff.mpr
    constructor
    · apply decide_eq_true
      norm_num [wStyle, defaultStyle]
    · apply decide_eq_true
      norm_num [wStyle, defaultStyle]
  have h16 : (16 : ℤ) ≤ calculateOptimalFontSize (fun _ => (0 : ℚ)) "ab" 20 20 wStyle :=
    hmax.2.2.2 16 (by norm_num) (by rw [max_self]; norm_num) hfit16
  have hne : calculateOptimalFontSize (fun _ => (0 : ℚ)) "ab" 20 20 wStyle ≠ 4 := by omega
  exact ⟨hne, c1_returned_size_fits (fun _ => (0 : ℚ)) "ab" 20 20 wStyle hne⟩

/-- C2, amended: when the fit predicate is downward closed in the size
(as it is for any monotone measurement with nonnegative line height), the
search returns the largest integer size in `[4, max(height, width)]` whose
fit test passes, and the floor value 4 when nothing in range fits.  For an
arbitrary non-monotone measurement the original claim is false
(see the counterexample). -/
theorem c2_search_largest_when_monotone (measure : ℤ → ℚ) (text : String)
    (maxWidth maxHeight : ℚ) (style : TextStyle)
    (hdc : ∀ a b : ℤ, a ≤ b →
      fitsAt measure style text.length maxWidth maxHeight b = true →
      fitsAt measure style text.length maxWidth maxHeight a = true) :
    4 ≤ calculateOptimalFontSize measure text maxWidth maxHeight style ∧
      (calculateOptimalFontSize measure text maxWidth maxHeight style = 4 ∨
        fitsAt measure style text.length maxWidth maxHeight
          (calculateOptimalFontSize measure text maxWidth maxHeight style) = true) ∧
      (calculateOptimalFontSize measure text maxWidth maxHeight style = 4 ∨
        ((calculateOptimalFontSize measure text maxWidth maxHeight style : ℤ) : ℚ) ≤
          max maxHeight maxWidth) ∧
      ∀ s : ℤ, 4 ≤ s → (s : ℚ) ≤ max maxHeight maxWidth →
        fitsAt measure style text.length maxWidth maxHeight s = true →
        s ≤ calculateOptimalFontSize measure text maxWidth maxHeight style :=
  calculateOptimalFontSize_maximal measure text maxWidth maxHeight style hdc

/-- Witness for C2 (amended) with the identity measurement on a 20 by 20
rectangle: the result is at least 9 because 9 fits. -/
theorem c2_search_largest_when_monotone_witness :
    (4 : ℤ) ≤ calculateOptimalFontSize (fun s : ℤ => (s : ℚ)) "a" 20 20 wStyle ∧
      (9 : ℤ) ≤ calculateOptimalFontSize (fun s : ℤ => (s : ℚ)) "a" 20 20 wStyle := by
  have hdc : ∀ a b : ℤ, a ≤ b →
      fitsAt (fun s : ℤ => (s : ℚ)) wStyle "a".length 20 20 b = true →
      fitsAt (fun s : ℤ => (s : ℚ)) wStyle "a".length 20 20 a = true := by
    intro a b hab hfb
    unfold fitsAt at hfb ⊢
    rcases Bool.and_eq_true_iff.mp hfb with ⟨h1, h2⟩
    have h1' := of_decide_eq_true h1
    have h2' := of_decide_eq_true h2
    have hcast : ((a : ℤ) : ℚ) ≤ ((b : ℤ) : ℚ) := by exact_mod_cast hab
    apply Bool.and_eq_true_iff.mpr
    constructor
    · apply decide_eq_true
      simp only [wStyle, defaultStyle] at h1' ⊢
      linarith
    · apply decide_eq_true
      simp only [wStyle, defaultStyle] at h2' ⊢
      linarith
  have h := c2_search_largest_when_monotone (fun s : ℤ => (s : ℚ)) "a" 20 20 wStyle hdc
  refine ⟨h.1, h.2.2.2 9 (by norm_num) (by rw [max_self]; norm_num) ?_⟩
  apply Bool.and_eq_true_iff.mpr
  constructor
  · apply decide_eq_true
    norm_num [wStyle, defaultStyle]
  · apply decide_eq_true
    norm_num [wStyle, defaultStyle]

/-- C2, counterexample: under a non-monotone measurement where exactly
sizes 4 and 9 fit a 10 by 10 rectangle, the binary search never probes 9 and
returns 4, so it does not return the largest fitting size in range. -/
theorem c2_counterexample :
    calculateOptimalFontSize cexMeasureC2 "a" 10 10 cexStyle = 4 ∧
      fitsAt cexMeasureC2 cexStyle "a".length 10 10 9 = true ∧
      (4 : ℤ) ≤ 9 ∧ ((9 : ℤ) : ℚ) ≤ max (10 : ℚ) 10 ∧
      ¬ ((9 : ℤ) ≤ calculateOptimalFontSize cexMeasureC2 "a" 10 10 cexStyle) := by
  have heval : calculateOptimalFontSize cexMeasureC2 "a" 10 10 cexStyle = 4 := by
    unfold calculateOptimalFontSize
    rw [show max (10 : ℚ) 10 = 10 from max_self 10]
    rw [show searchLoop (fitsAt cexMeasureC2 cexStyle "a".length 10 10) 4 10 4 =
        searchLoopFuel (fitsAt cexMeasureC2 cexStyle "a".length 10 10)
          (searchMeasure 4 10) 4 10 4 from rfl]
    rw [show searchMeasure 4 10 = 7 by
      unfold searchMeasure
      rw [show ⌊(10 : ℚ)⌋ = 10 by norm_num]
      rfl]
    rw [show (7 : ℕ) = 6 + 1 from rfl,
      searchLoopFuel_step_false _ 6 4 10 6 4 7 (by norm_num)
        (by norm_num [searchMid])
        (by norm_num [fitsAt, cexStyle, defaultStyle, cexMeasureC2])
        (by norm_num)]
    rw [show (6 : ℕ) = 5 + 1 from rfl,
      searchLoopFuel_step_false _ 5 4 6 4 4 5 (by norm_num)
        (by norm_num [searchMid])
        (by norm_num [fitsAt, cexStyle, defaultStyle, cexMeasureC2])
        (by norm_num)]
    rw [show (5 : ℕ) = 4 + 1 from rfl,
      searchLoopFuel_step_true _ 4 4 4 4 4 (by norm_num)
        (by norm_num [searchMid])
        (by norm_num [fitsAt, cexStyle, defaultStyle, cexMeasureC2])]
    rw [searchLoopFuel_exit _ _ _ _ _ (by norm_num)]
    exact max_self 4
  refine ⟨heval, ?_, by norm_num, by rw [max_self]; norm_num, by rw [heval]; omega⟩
  apply Bool.and_eq_true_iff.mpr
  constructor
  · apply decide_eq_true
    norm_num [cexStyle, defaultStyle, cexMeasureC2]
  · apply decide_eq_true
    norm_num [cexStyle, defaultStyle]

/-- C5, amended: for a measurement that is monotone in the font size and a
nonnegative line height, enlarging the scaled rectangle never decreases the
computed font size (equivalently, shrinking never increases it).  For an
arbitrary non-monotone measurement the original claim is false
(see the counterexample). -/
theorem c5_monotone_in_rectangle (measure : ℤ → ℚ) (text : String) (style : TextStyle)
    (hmono : ∀ a b : ℤ, a ≤ b → measure a ≤ measure b)
    (hlh : 0 ≤ style.lineHeight)
    (w1 h1 w2 h2 : ℚ) (hw : w1 ≤ w2) (hh : h1 ≤ h2) :
    calculateOptimalFontSize measure text w1 h1 style ≤
      calculateOptimalFontSize measure text w2 h2 style := by
  have hdc : ∀ (wq hq : ℚ) (a b : ℤ), a ≤ b →
      fitsAt measure style text.length wq hq b = true →
      fitsAt measure style text.length wq hq a = true := by
    intro wq hq a b hab hfb
    unfold fitsAt at hfb ⊢
    rcases Bool.and_eq_true_iff.mp hfb with ⟨hb1, hb2⟩
    have hb1' := of_decide_eq_true hb1
    have hb2' := of_decide_eq_true hb2
    have hcast : ((a : ℤ) : ℚ) ≤ ((b : ℤ) : ℚ) := by exact_mod_cast hab
    apply Bool.and_eq_true_iff.mpr
    constructor
    · apply decide_eq_true
      have := hmono a b hab
      linarith
    · apply decide_eq_true
      have := mul_le_mul_of_nonneg_right hcast hlh
      linarith
  have hA := calculateOptimalFontSize_maximal measure text w1 h1 style (hdc w1 h1)
  have hB := calculateOptimalFontSize_maximal measure text w2 h2 style (hdc w2 h2)
  rcases hA.2.1 with hA4 | hAfit
  · rw [hA4]
    exact hB.1
  · rcases hA.2.2.1 with hA4 | hAle
    · rw [hA4]
      exact hB.1
    · have hfit2 : fitsAt measure style text.length w2 h2
          (calculateOptimalFontSize measure text w1 h1 style) = true := by
        unfold fitsAt at hAfit ⊢
        rcases Bool.and_eq_true_iff.mp hAfit with ⟨hb1, hb2⟩
        have hb1' := of_decide_eq_true hb1
        have hb2' := of_decide_eq_true hb2
        apply Bool.and_eq_true_iff.mpr
        exact ⟨decide_eq_true (by linarith), decide_eq_true (by linarith)⟩
      exact hB.2.2.2 _ hA.1 (le_trans hAle (max_le_max hh hw)) hfit2

/-- Witness for C5 (amended): identity measurement, rectangle enlarged
from 20 by 20 to 30 by 30. -/
theorem c5_monotone_in_rectangle_witness :
    calculateOptimalFontSize (fun s : ℤ => (s : ℚ)) "a" 20 20 wStyle ≤
      calculateOptimalFontSize (fun s : ℤ => (s : ℚ)) "a" 30 30 wStyle :=
  c5_monotone_in_rectangle (fun s : ℤ => (s : ℚ)) "a" wStyle
    (fun a b hab => by
      show ((a : ℤ) : ℚ) ≤ ((b : ℤ) : ℚ)
      exact_mod_cast hab)
    (by norm_num [wStyle, defaultStyle])
    20 20 30 30 (by norm_num) (by norm_num)

/-- C5, counterexample: under a non-monotone measurement where exactly
sizes 4 and 7 measure narrow, widening the rectangle from 10 by 10 to
12 by 10 changes the probe sequence and the result drops from 7 to 4. -/
theorem c5_counterexample :
    (10 : ℚ) ≤ 12 ∧ (10 : ℚ) ≤ 10 ∧
      calculateOptimalFontSize cexMeasureC5 "a" 10 10 cexStyle = 7 ∧
      calculateOptimalFontSize cexMeasureC5 "a" 12 10 cexStyle = 4 ∧
      ¬ (calculateOptimalFontSize cexMeasureC5 "a" 10 10 cexStyle ≤
          calculateOptimalFontSize cexMeasureC5 "a" 12 10 cexStyle) := by
  have hevalA : calculateOptimalFontSize cexMeasureC5 "a" 10 10 cexStyle = 7 := by
    unfold calculateOptimalFontSize
    rw [show max (10 : ℚ) 10 = 10 from max_self 10]
    rw [show searchLoop (fitsAt cexMeasureC5 cexStyle "a".length 10 10) 4 10 4 =
        searchLoopFuel (fitsAt cexMeasureC5 cexStyle "a".length 10 10)
          (searchMeasure 4 10) 4 10 4 from rfl]
    rw [show searchMeasure 4 10 = 7 by
      unfold searchMeasure
      rw [show ⌊(10 : ℚ)⌋ = 10 by norm_num]
      rfl]
    rw [show (7 : ℕ) = 6 + 1 from rfl,
      searchLoopFuel_step_true _ 6 4 10 4 7 (by norm_num)
        (by norm_num [searchMid])
        (by norm_num [fitsAt, cexStyle, defaultStyle, cexMeasureC5])]
    rw [show (7 : ℤ) + 1 = 8 by norm_num]
    rw [show (6 : ℕ) = 5 + 1 from rfl,
      searchLoopFuel_step_false _ 5 8 10 8 7 9 (by norm_num)
        (by norm_num [searchMid])
        (by norm_num [fitsAt, cexStyle, defaultStyle, cexMeasureC5])
        (by norm_num)]
    rw [show (5 : ℕ) = 4 + 1 from rfl,
      searchLoopFuel_step_false _ 4 8 8 7 7 8 (by norm_num)
        (by norm_num [searchMid])
        (by norm_num [fitsAt, cexStyle, defaultStyle, cexMeasureC5])
        (by norm_num)]
    rw [searchLoopFuel_exit _ _ _ _ _ (by norm_num)]
    decide
  have hevalB : calculateOptimalFontSize cexMeasureC5 "a" 12 10 cexStyle = 4 := by
    unfold calculateOptimalFontSize
    rw [show max (10 : ℚ) 12 = 12 by rw [max_eq_right]; norm_num]
    rw [show searchLoop (fitsAt cexMeasureC5 cexStyle "a".length 12 10) 4 12 4 =
        searchLoopFuel (fitsAt cexMeasureC5 cexStyle "a".length 12 10)
          (searchMeasure 4 12) 4 12 4 from rfl]
    rw [show searchMeasure 4 12 = 9 by
      unfold searchMeasure
      rw [show ⌊(12 : ℚ)⌋ = 12 by norm_num]
      rfl]
    rw [show (9 : ℕ) = 8 + 1 from rfl,
      searchLoopFuel_step_false _ 8 4 12 7 4 8 (by norm_num)
        (by norm_num [searchMid])
        (by norm_num [fitsAt, cexStyle, defaultStyle, cexMeasureC5])
        (by norm_num)]
    rw [show (8 : ℕ) = 7 + 1 from rfl,
      searchLoopFuel_step_false _ 7 4 7 4 4 5 (by norm_num)
        (by norm_num [searchMid])
        (by norm_num [fitsAt, cexStyle, defaultStyle, cexMeasureC5])
        (by norm_num)]
    rw [show (7 : ℕ) = 6 + 1 from rfl,
      searchLoopFuel_step_true _ 6 4 4 4 4 (by norm_num)
        (by norm_num [searchMid])
        (by norm_num [fitsAt, cexStyle, defaultStyle, cexMeasureC5])]
    rw [searchLoopFuel_exit _ _ _ _ _ (by norm_num)]
    exact max_self 4
  refine ⟨by norm_num, by norm_num, hevalA, hevalB, ?_⟩
  rw [hevalA, hevalB]
  omega

/-- C9, amended: in exact finite arithmetic, whenever the loop condition
`low <= high` holds — including non-integer, zero or negative bounds — both
possible next states strictly shrink the integer bracket measure, and the
loop therefore finishes within `searchMeasure low high` iterations: any fuel
at least that bound computes the loop's final answer.  Under IEEE-double
semantics the unrestricted claim is false: with an infinite bound no
iteration makes progress and the loop never exits (see the
counterexample). -/
theorem c9_loop_terminates (low : ℤ) (high : ℚ) (h : (low : ℚ) ≤ high) :
    searchMeasure (searchMid low high + 1) high < searchMeasure low high ∧
      searchMeasure low ((searchMid low high : ℚ) - 1) < searchMeasure low high ∧
      ∀ (fit : ℤ → Bool) (fuel : ℕ) (opt : ℤ), searchMeasure low high ≤ fuel →
        searchLoopFuel fit fuel low high opt = searchLoop fit low high opt :=
  ⟨searchMeasure_decreases_up low high h, searchMeasure_decreases_down low high h,
    fun fit fuel opt hle => searchLoopFuel_eq_searchLoop fit fuel low high opt hle⟩

/-- Witness for C9 at `low = 4` and the non-integer bound
`high = 21 / 2`. -/
theorem c9_loop_terminates_witness :
    (((4 : ℤ) : ℚ) ≤ 21 / 2) ∧
      (searchMeasure (searchMid 4 (21 / 2) + 1) (21 / 2) < searchMeasure 4 (21 / 2) ∧
        searchMeasure 4 ((searchMid 4 (21 / 2) : ℚ) - 1) < searchMeasure 4 (21 / 2) ∧
        ∀ (fit : ℤ → Bool) (fuel : ℕ) (opt : ℤ), searchMeasure 4 (21 / 2) ≤ fuel →
          searchLoopFuel fit fuel 4 (21 / 2) opt = searchLoop fit 4 (21 / 2) opt) :=
  ⟨by norm_num, c9_loop_terminates 4 (21 / 2) (by norm_num)⟩

/-- C9, counterexample: under IEEE-double semantics the loop does not
terminate for every input.  With scaled width 10, an infinite scaled height
(so the search bound `Math.max(maxHeight, maxWidth)` is `Infinity`) and a
measurement that always reports width 100, the loop state
`(low, high, opt) = (4, Infinity, 4)` satisfies the loop condition, yet one
iteration computes `mid = Infinity`, fails the fit test, sets
`high = Infinity - 1 = Infinity` and leaves the state unchanged — `low` is
not increased and `high` is not decreased — so every number of iterations
reproduces the same state and the loop condition never fails. -/
theorem c9_counterexample :
    jsMax JsNum.inf (JsNum.num 10) = JsNum.inf ∧
      jsLe (JsNum.num 4) JsNum.inf = true ∧
      searchMidJs (JsNum.num 4) JsNum.inf = JsNum.inf ∧
      jsSubFin JsNum.inf 1 = JsNum.inf ∧
      searchStepJs (fitsAtJs cexMeasureC9 cexStyle 1 (JsNum.num 10) JsNum.inf)
          (JsNum.num 4, JsNum.inf, JsNum.num 4) =
        (JsNum.num 4, JsNum.inf, JsNum.num 4) ∧
      ∀ n : ℕ,
        (searchStepJs (fitsAtJs cexMeasureC9 cexStyle 1 (JsNum.num 10) JsNum.inf))^[n]
            (JsNum.num 4, JsNum.inf, JsNum.num 4) =
          (JsNum.num 4, JsNum.inf, JsNum.num 4) := by
  have hfit : fitsAtJs cexMeasureC9 cexStyle 1 (JsNum.num 10) JsNum.inf JsNum.inf = false := by
    unfold fitsAtJs cexMeasureC9
    simp only [jsSubFin, jsMulFin, jsLe, Bool.and_eq_false_iff]
    left
    rw [decide_eq_false_iff_not]
    norm_num [cexStyle, defaultStyle]
  have hstep : searchStepJs (fitsAtJs cexMeasureC9 cexStyle 1 (JsNum.num 10) JsNum.inf)
      (JsNum.num 4, JsNum.inf, JsNum.num 4) = (JsNum.num 4, JsNum.inf, JsNum.num 4) := by
    simp [searchStepJs, searchMidJs, jsAdd, jsHalf, jsFloor, jsSubFin, jsLe, hfit]
  refine ⟨rfl, rfl, rfl, rfl, hstep, ?_⟩
  intro n
  induction n with
  | zero => rfl
  | succ k ih => rw [Function.iterate_succ_apply, hstep, ih]
